import Mathlib

/-!
Shallow embedding of `src/oeciml/torchmodules/optimizer.py`: the
`ScheduledOptimizer` wrapper and the two schedule strategies
(`LinearSchedule`, `CyclicalLinearSchedule`).  Python floats are modelled
as exact rationals (`ℚ`); the in-place mutation of schedule objects and
parameter groups is modelled by explicit state passing (each `step`
returns the updated schedule together with the value it writes into the
group's target field).  The target field path defaults to `"lr"` and no
other path is used in the repository, so a parameter group's target field
is modelled as a single rational `lr`.
-/

namespace Oeciml

/-- State of `LinearSchedule` (`optimizer.py`, lines 71-108).
`max_value` is `Option ℚ` because Python initialises it to `None` and
lazily resolves it from the group's current field value. -/
structure LinearSchedule where
  start_value : ℚ
  max_value : Option ℚ
  warmup : Bool
  warmup_rate : ℚ
  total_steps : ℚ
  idx : ℕ
  deriving Repr, DecidableEq

/-- The serialized state of a schedule: both schedule classes return
`{"idx": self.idx}` from `state_dict`. -/
structure ScheduleState where
  idx : ℕ
  deriving Repr, DecidableEq

/-- `LinearSchedule.state_dict` (lines 89-92): `{"idx": self.idx}`. -/
def LinearSchedule.state_dict (s : LinearSchedule) : ScheduleState :=
  ⟨s.idx⟩

/-- `LinearSchedule.load_state_dict` (lines 94-95): `self.idx = state["idx"]`. -/
def LinearSchedule.load_state_dict (s : LinearSchedule) (st : ScheduleState) :
    LinearSchedule :=
  { s with idx := st.idx }

/-- `warmup_steps = self.total_steps * self.warmup_rate` (line 100). -/
def LinearSchedule.warmupSteps (s : LinearSchedule) : ℚ :=
  s.total_steps * s.warmup_rate

/-- `LinearSchedule.step` (lines 97-108).  Takes the group's current target
field value (used to resolve `max_value` when it is `None`) and returns the
updated schedule together with the value written into the group. -/
def LinearSchedule.step (s : LinearSchedule) (lr : ℚ) : LinearSchedule × ℚ :=
  let mv := s.max_value.getD lr
  let warmup_steps := s.total_steps * s.warmup_rate
  let value :=
    if (s.idx : ℚ) < warmup_steps then
      s.start_value + (mv - s.start_value) * ((s.idx : ℚ) / warmup_steps)
    else
      mv + (0 - mv) * (((s.idx : ℚ) - warmup_steps) / (s.total_steps - warmup_steps))
  ({ s with max_value := some mv, idx := s.idx + 1 }, value)

/-- State of `CyclicalLinearSchedule` (lines 111-155). -/
structure CyclicalLinearSchedule where
  max_value : Option ℚ
  min_value : ℚ
  epochs_per_cycle : ℕ
  steps_per_epoch : ℕ
  num_epoch : ℕ
  idx : ℕ
  deriving Repr, DecidableEq

/-- `CyclicalLinearSchedule.state_dict` (lines 129-132): `{"idx": self.idx}`. -/
def CyclicalLinearSchedule.state_dict (s : CyclicalLinearSchedule) : ScheduleState :=
  ⟨s.idx⟩

/-- `CyclicalLinearSchedule.load_state_dict` (lines 134-135). -/
def CyclicalLinearSchedule.load_state_dict (s : CyclicalLinearSchedule)
    (st : ScheduleState) : CyclicalLinearSchedule :=
  { s with idx := st.idx }

/-- `CyclicalLinearSchedule.step` (lines 137-155).  The value is computed
from the pre-call `num_epoch`; the epoch counter is then advanced when
`idx > (num_epoch + 1) * steps_per_epoch`, and `idx` is incremented. -/
def CyclicalLinearSchedule.step (s : CyclicalLinearSchedule) (lr : ℚ) :
    CyclicalLinearSchedule × ℚ :=
  let mv := s.max_value.getD lr
  let value :=
    mv - ((mv - s.min_value) / ((s.epochs_per_cycle : ℚ) - 1))
        * ((s.num_epoch % s.epochs_per_cycle : ℕ) : ℚ)
  let num_epoch' :=
    if s.idx > (s.num_epoch + 1) * s.steps_per_epoch then s.num_epoch + 1
    else s.num_epoch
  ({ s with max_value := some mv, num_epoch := num_epoch', idx := s.idx + 1 }, value)

/-! ### The `ScheduledOptimizer` wrapper

The wrapper (lines 6-68) drives a list of schedule objects attached to
each parameter group of an inner optimizer.  A schedule is one of the two
strategy classes; a parameter group is its target field value (`lr`)
together with the optional `schedules` entry (a Python dict key that may
be absent, hence `Option`).  The inner optimizer is kept abstract: its
internal state is a type parameter, its `step` an arbitrary function that
may update the internal state and the groups and return a loss value. -/

/-- A schedule attached to a parameter group: one of the two strategy
classes, dispatched polymorphically. -/
inductive Schedule
  | linear : LinearSchedule → Schedule
  | cyclical : CyclicalLinearSchedule → Schedule
  deriving Repr, DecidableEq

/-- Polymorphic `schedule.step(group)` dispatch. -/
def Schedule.step : Schedule → ℚ → Schedule × ℚ
  | .linear s, lr => ((Schedule.linear (s.step lr).1), (s.step lr).2)
  | .cyclical s, lr => ((Schedule.cyclical (s.step lr).1), (s.step lr).2)

/-- Polymorphic `schedule.state_dict()` dispatch. -/
def Schedule.state_dict : Schedule → ScheduleState
  | .linear s => s.state_dict
  | .cyclical s => s.state_dict

/-- Polymorphic `schedule.load_state_dict(state)` dispatch. -/
def Schedule.load_state_dict : Schedule → ScheduleState → Schedule
  | .linear s, st => .linear (s.load_state_dict st)
  | .cyclical s, st => .cyclical (s.load_state_dict st)

/-- The step index of a schedule. -/
def Schedule.idx : Schedule → ℕ
  | .linear s => s.idx
  | .cyclical s => s.idx

/-- A parameter group as the wrapper sees it: the target field value
(the code only ever uses the default path `"lr"`) and the optional
`schedules` entry, already normalized to a list. -/
structure Group where
  lr : ℚ
  schedules : Option (List Schedule)
  deriving Repr, DecidableEq

/-- The `schedules` entry of a parameter group before the wrapper's
constructor normalizes it: either a single schedule object or a list. -/
inductive SchedulesField
  | one : Schedule → SchedulesField
  | many : List Schedule → SchedulesField
  deriving Repr, DecidableEq

/-- A parameter group of the inner optimizer before wrapper construction. -/
structure RawGroup where
  lr : ℚ
  schedules : Option SchedulesField
  deriving Repr, DecidableEq

/-- The constructor's normalization (lines 11-13): a single schedule
becomes a list of one. -/
def SchedulesField.toList : SchedulesField → List Schedule
  | .one s => [s]
  | .many ss => ss

/-- `for schedule in group["schedules"]: schedule.step(group)` — each
schedule is stepped once in attachment order, threading the group's
target field value (a schedule may read the value the previous one
wrote, via lazy `max_value` resolution). -/
def stepSchedules : List Schedule → ℚ → List Schedule × ℚ
  | [], lr => ([], lr)
  | s :: rest, lr =>
    let r := s.step lr
    let rest' := stepSchedules rest r.2
    (r.1 :: rest'.1, rest'.2)

/-- One group's part of `ScheduledOptimizer.step` (lines 65-68): groups
without a `schedules` entry are left untouched. -/
def stepGroup (g : Group) : Group :=
  match g.schedules with
  | none => g
  | some ss =>
    let r := stepSchedules ss g.lr
    { lr := r.2, schedules := some r.1 }

/-- One group's part of `ScheduledOptimizer.__init__` (lines 9-15):
normalize the `schedules` entry to a list and step each schedule once. -/
def initGroup (g : RawGroup) : Group :=
  match g.schedules with
  | none => { lr := g.lr, schedules := none }
  | some sf =>
    let r := stepSchedules sf.toList g.lr
    { lr := r.2, schedules := some r.1 }

/-- The wrapper: the inner optimizer's opaque internal state together with
its parameter groups (the wrapper's `param_groups` property is a
transparent proxy to the inner optimizer's groups). -/
structure ScheduledOptimizer (σ : Type) where
  internal : σ
  param_groups : List Group
  deriving Repr, DecidableEq

/-- `ScheduledOptimizer.__init__` (lines 7-16): wrap an inner optimizer
(internal state plus raw parameter groups), normalizing and priming every
group that carries a `schedules` entry. -/
def ScheduledOptimizer.construct {σ : Type} (internal : σ)
    (groups : List RawGroup) : ScheduledOptimizer σ :=
  ⟨internal, groups.map initGroup⟩

/-- The inner optimizer's own state dict: its opaque internal part plus
per-group copies (which, as in `torch`, carry every non-parameter group
entry, including `schedules` when present). -/
structure InnerStateDict (τ : Type) where
  internal : τ
  param_groups : List Group
  deriving Repr, DecidableEq

/-- The wrapper's composite state dict (lines 38-45): exactly the three
keys `optim`, `lr` and `schedules`. -/
structure WrapperStateDict (τ : Type) where
  optim : InnerStateDict τ
  lr : List ℚ
  schedules : List (List ScheduleState)
  deriving Repr, DecidableEq

/-- A Python list comprehension whose body may raise: `none` as soon as
the body raises on some element, otherwise the list of results. -/
def traverseOption {α β : Type} (f : α → Option β) : List α → Option (List β)
  | [] => some []
  | a :: l => do
    let b ← f a
    let bs ← traverseOption f l
    pure (b :: bs)

/-- `del group["schedules"]` (line 47) on a group copy: a `KeyError`
(modelled as `none`) when the key is absent. -/
def delSchedules (g : Group) : Option Group :=
  match g.schedules with
  | some _ => some { g with schedules := none }
  | none => none

/-- `ScheduledOptimizer.state_dict` (lines 37-48).  `none` models the
uncaught exception raised when a parameter group has no `schedules` entry
(iterating `group.get("schedules")` over `None`, and `del` on the absent
key in the inner dict's group copies). -/
def ScheduledOptimizer.state_dict {σ τ : Type} (innerSD : σ → τ)
    (w : ScheduledOptimizer σ) : Option (WrapperStateDict τ) := do
  let scheds ← traverseOption
    (fun g => (Group.schedules g).map (List.map Schedule.state_dict)) w.param_groups
  let stripped ← traverseOption delSchedules w.param_groups
  pure ⟨⟨innerSD w.internal, stripped⟩, w.param_groups.map Group.lr, scheds⟩

/-- The per-pair part of `load_state_dict`'s inner zip (lines 57-60):
each schedule's saved state is applied positionally; `zip` truncates, so
extra schedules keep their current state. -/
def loadSchedules : List Schedule → List ScheduleState → List Schedule
  | ss, [] => ss
  | [], _ :: _ => []
  | s :: ss, t :: ts => s.load_state_dict t :: loadSchedules ss ts

/-- The outer zip of `load_state_dict` (lines 53-61): the restored groups
are zipped with the previously attached schedule lists and the saved
per-schedule states and target values; `zip` truncates, leaving extra
restored groups untouched. -/
def reattachGroups : List Group → List (List Schedule) → List (List ScheduleState) →
    List ℚ → List Group
  | g :: gs, ss :: sss, ts :: tss, lr :: lrs =>
      { g with schedules := some (loadSchedules ss ts), lr := lr }
        :: reattachGroups gs sss tss lrs
  | gs, _, _, _ => gs

/-- `ScheduledOptimizer.load_state_dict` (lines 50-61): capture the
currently attached schedules (a `KeyError`, modelled as `none`, when a
group has none), restore the inner optimizer (which replaces the group
list with the saved copies), then re-attach and restore the schedules and
re-write the saved target values. -/
def ScheduledOptimizer.load_state_dict {σ τ : Type} (innerLoad : τ → σ)
    (w : ScheduledOptimizer σ) (st : WrapperStateDict τ) :
    Option (ScheduledOptimizer σ) := do
  let optimSchedules ← traverseOption Group.schedules w.param_groups
  pure ⟨innerLoad st.optim.internal,
        reattachGroups st.optim.param_groups optimSchedules st.schedules st.lr⟩

/-- `ScheduledOptimizer.step` (lines 63-68): delegate to the inner
optimizer's step (which may update its internal state and the groups and
return a loss), then step every group's schedules; the Python method has
no `return` statement, so the loss is discarded and `None` is returned. -/
def ScheduledOptimizer.step {σ C : Type}
    (innerStep : Option C → σ → List Group → σ × List Group × Option ℚ)
    (w : ScheduledOptimizer σ) (closure : Option C) :
    ScheduledOptimizer σ × Option ℚ :=
  let r := innerStep closure w.internal w.param_groups
  (⟨r.1, (r.2.1).map stepGroup⟩, none)

/-! ### Auxiliary notions for the round-trip analysis -/

/-- The trajectory of the parameter groups under repeated `step()` calls:
the inner optimizer's step leaves the groups' hyperparameters unchanged
(it only updates parameters and its own state), so each wrapper step acts
on the groups as `List.map stepGroup`. -/
def runGroups : ℕ → List Group → List Group
  | 0, gs => gs
  | n + 1, gs => runGroups n (gs.map stepGroup)

/-- Whether a schedule is a `LinearSchedule`. -/
def Schedule.isLinear : Schedule → Bool
  | .linear _ => true
  | .cyclical _ => false

/-- Whether a schedule is a `LinearSchedule` whose lazily-resolved
`max_value` has already been fixed. -/
def Schedule.resolvedLinear : Schedule → Bool
  | .linear s => s.max_value.isSome
  | .cyclical _ => false

/-- Replace a schedule's step index, leaving all other fields unchanged
(this is exactly what `load_state_dict` does). -/
def Schedule.withIdx : Schedule → ℕ → Schedule
  | .linear s, i => .linear { s with idx := i }
  | .cyclical c, i => .cyclical { c with idx := i }

/-- Advance a schedule's step index by one, leaving all other fields
unchanged (what `step` does to a resolved `LinearSchedule`). -/
def Schedule.bumpIdx : Schedule → Schedule
  | .linear s => .linear { s with idx := s.idx + 1 }
  | .cyclical c => .cyclical { c with idx := c.idx + 1 }

/-- Two schedules that agree on everything except their step index. -/
def Schedule.sameShape (t t' : Schedule) : Prop :=
  t.withIdx 0 = t'.withIdx 0

/-- A raw parameter group that carries a `schedules` entry holding only
`LinearSchedule`s (the configuration C3 quantifies over). -/
def RawGroup.linearOnly (g : RawGroup) : Bool :=
  match g.schedules with
  | none => false
  | some sf => sf.toList.all Schedule.isLinear

/-- A parameter group carrying a `schedules` entry of resolved
`LinearSchedule`s — the shape every group of a constructed
linear-only wrapper has, preserved by stepping. -/
def Group.goodLinear (g : Group) : Bool :=
  match g.schedules with
  | none => false
  | some ss => ss.all Schedule.resolvedLinear

/-- Groups whose schedule lists agree pointwise on everything except the
step indices. -/
def groupCongr (g g' : Group) : Prop :=
  ∃ ss ss', g.schedules = some ss ∧ g'.schedules = some ss'
    ∧ List.Forall₂ Schedule.sameShape ss ss'

/-! ### Concrete sample data -/

/-- A concrete `LinearSchedule`: `total_steps = 100`, `warmup_rate = 0.1`
(so `warmup_steps = 10`), `start_value = 0`, `max_value = 10`. -/
def sampleLinear : LinearSchedule :=
  { start_value := 0, max_value := some 10, warmup := true,
    warmup_rate := 1 / 10, total_steps := 100, idx := 0 }

/-- A `LinearSchedule` whose `warmup_rate` is zero, so `warmup_steps = 0`. -/
def sampleLinearNoWarmup : LinearSchedule :=
  { start_value := 0, max_value := some 10, warmup := true,
    warmup_rate := 0, total_steps := 100, idx := 7 }

/-- A raw parameter group carrying a single (unlisted) linear schedule. -/
def sampleRawGroup : RawGroup :=
  ⟨1, some (.one (.linear sampleLinear))⟩

/-- A raw parameter group carrying a one-element schedule list. -/
def sampleRawGroupMany : RawGroup :=
  ⟨1, some (.many [.linear sampleLinear])⟩

/-- A one-group inner-optimizer configuration with a single linear
schedule. -/
def sampleCfg : List RawGroup :=
  [sampleRawGroup]

/-- The wrapper built over `sampleCfg` with a trivial (ℕ-valued) inner
optimizer state. -/
def sampleWrapper : ScheduledOptimizer ℕ :=
  ScheduledOptimizer.construct 0 sampleCfg

/-- An inner step function that updates nothing and reports a loss of 1;
used to witness that the wrapper discards the inner step's result. -/
def sampleInnerStep : Option Unit → ℕ → List Group → ℕ × List Group × Option ℚ :=
  fun _ s gs => (s, gs, some 1)

/-! ### Schedule-level claims -/

/-- C1: for a `LinearSchedule.step` call whose pre-call index is below
`warmup_steps = total_steps * warmup_rate`, the value written is
`start_value + (max_value - start_value) * (idx / warmup_steps)`; at
`idx = 0` it equals `start_value`; and over indices in `[0, warmup_steps)`
the written values ramp monotonically (non-decreasingly, when the ramp goes
from `start_value` up toward `max_value`, i.e. `start_value ≤ max_value`)
and never exceed `max_value`. -/
theorem linearStep_warmup_ramp (s : LinearSchedule) (lr : ℚ) (i j : ℕ)
    (hi : (i : ℚ) < s.warmupSteps) (hj : (j : ℚ) < s.warmupSteps) (hij : i ≤ j) :
    (({ s with idx := i }).step lr).2
      = s.start_value + (s.max_value.getD lr - s.start_value) * ((i : ℚ) / s.warmupSteps)
    ∧ (({ s with idx := 0 }).step lr).2 = s.start_value
    ∧ (s.start_value ≤ s.max_value.getD lr →
        (({ s with idx := i }).step lr).2 ≤ (({ s with idx := j }).step lr).2
        ∧ (({ s with idx := j }).step lr).2 ≤ s.max_value.getD lr) := by
  have hw : (0 : ℚ) < s.warmupSteps :=
    lt_of_le_of_lt (Nat.cast_nonneg i) hi
  have hiv :
      (({ s with idx := i }).step lr).2
        = s.start_value + (s.max_value.getD lr - s.start_value) * ((i : ℚ) / s.warmupSteps) := by
    simp only [LinearSchedule.step, LinearSchedule.warmupSteps] at *
    rw [if_pos hi]
  have hjv :
      (({ s with idx := j }).step lr).2
        = s.start_value + (s.max_value.getD lr - s.start_value) * ((j : ℚ) / s.warmupSteps) := by
    simp only [LinearSchedule.step, LinearSchedule.warmupSteps] at *
    rw [if_pos hj]
  have h0v : (({ s with idx := 0 }).step lr).2 = s.start_value := by
    have h0 : ((0 : ℕ) : ℚ) < s.warmupSteps := by simpa using hw
    simp only [LinearSchedule.step, LinearSchedule.warmupSteps] at h0 ⊢
    rw [if_pos h0]
    simp
  refine ⟨hiv, h0v, fun hdir => ⟨?_, ?_⟩⟩
  · rw [hiv, hjv]
    have hfrac : (i : ℚ) / s.warmupSteps ≤ (j : ℚ) / s.warmupSteps := by
      apply div_le_div_of_nonneg_right _ hw.le
      exact_mod_cast hij
    nlinarith [hfrac, sub_nonneg.mpr hdir]
  · rw [hjv]
    have hfrac : (j : ℚ) / s.warmupSteps ≤ 1 := by
      rw [div_le_one hw]
      exact le_of_lt hj
    nlinarith [hfrac, sub_nonneg.mpr hdir]

/-- C2: for a `LinearSchedule.step` call whose pre-call index is at or past
`warmup_steps`, the value written is
`max_value * (1 - (idx - warmup_steps) / (total_steps - warmup_steps))`;
when `warmup_steps < total_steps` (the decay denominator is positive), the
value at `idx = warmup_steps` is exactly `max_value`, and for a positive
`max_value` any index past `total_steps` yields a negative value (no clamp). -/
theorem linearStep_decay (s : LinearSchedule) (lr : ℚ)
    (h : s.warmupSteps ≤ (s.idx : ℚ)) :
    (s.step lr).2
      = s.max_value.getD lr
        * (1 - ((s.idx : ℚ) - s.warmupSteps) / (s.total_steps - s.warmupSteps))
    ∧ ((s.idx : ℚ) = s.warmupSteps → (s.step lr).2 = s.max_value.getD lr)
    ∧ (s.warmupSteps < s.total_steps → s.total_steps < (s.idx : ℚ) →
        0 < s.max_value.getD lr → (s.step lr).2 < 0) := by
  have hv :
      (s.step lr).2
        = s.max_value.getD lr
          + (0 - s.max_value.getD lr)
            * (((s.idx : ℚ) - s.warmupSteps) / (s.total_steps - s.warmupSteps)) := by
    simp only [LinearSchedule.step, LinearSchedule.warmupSteps] at *
    rw [if_neg (not_lt.mpr h)]
  refine ⟨by rw [hv]; ring, fun heq => ?_, fun hwt hpast hpos => ?_⟩
  · rw [hv, heq]
    simp
  · rw [hv]
    have hd : (0 : ℚ) < s.total_steps - s.warmupSteps := sub_pos.mpr hwt
    have hfrac : 1 < ((s.idx : ℚ) - s.warmupSteps) / (s.total_steps - s.warmupSteps) := by
      rw [lt_div_iff₀ hd]
      linarith
    nlinarith [hfrac, hpos]

/-- C7: when `warmup_steps = total_steps * warmup_rate` is zero, the warmup
branch condition `idx < warmup_steps` of `LinearSchedule.step` never holds
(the index is a non-negative integer), so the branch dividing by
`warmup_steps` is never reached and every call takes the decay branch. -/
theorem linearStep_zero_warmup (s : LinearSchedule) (lr : ℚ)
    (h : s.warmupSteps = 0) :
    ¬ ((s.idx : ℚ) < s.warmupSteps)
    ∧ (s.step lr).2
      = s.max_value.getD lr
        + (0 - s.max_value.getD lr)
          * (((s.idx : ℚ) - s.warmupSteps) / (s.total_steps - s.warmupSteps)) := by
  have hnot : ¬ ((s.idx : ℚ) < s.warmupSteps) := by
    rw [h]
    exact not_lt.mpr (Nat.cast_nonneg s.idx)
  refine ⟨hnot, ?_⟩
  simp only [LinearSchedule.step, LinearSchedule.warmupSteps] at hnot ⊢
  rw [if_neg hnot]

/-- C5: every `CyclicalLinearSchedule.step` call writes
`max_value - ((max_value - min_value) / (epochs_per_cycle - 1)) * (num_epoch % epochs_per_cycle)`;
with `epochs_per_cycle = 10`, `max_value = 0.01`, `min_value = 0.001`,
cycle position 0 yields 0.01 and cycle position 9 yields 0.001; and the
ramp restarts every `epochs_per_cycle` epochs. -/
theorem cyclicalStep_value (s : CyclicalLinearSchedule) (lr : ℚ) :
    (s.step lr).2
      = s.max_value.getD lr
        - ((s.max_value.getD lr - s.min_value) / ((s.epochs_per_cycle : ℚ) - 1))
          * ((s.num_epoch % s.epochs_per_cycle : ℕ) : ℚ)
    ∧ (s.epochs_per_cycle = 10 → s.max_value = some (1 / 100) → s.min_value = 1 / 1000 →
        (s.num_epoch % 10 = 0 → (s.step lr).2 = 1 / 100)
        ∧ (s.num_epoch % 10 = 9 → (s.step lr).2 = 1 / 1000))
    ∧ (({ s with num_epoch := s.num_epoch + s.epochs_per_cycle }).step lr).2
      = (s.step lr).2 := by
  refine ⟨rfl, fun hc hmax hmin => ⟨fun hpos => ?_, fun hpos => ?_⟩, ?_⟩
  · simp only [CyclicalLinearSchedule.step, hc, hmax, hmin, hpos]
    norm_num
  · simp only [CyclicalLinearSchedule.step, hc, hmax, hmin, hpos]
    norm_num
  · simp only [CyclicalLinearSchedule.step, Nat.add_mod_right]

/-- C8: both schedules serialize only `idx`, and `load_state_dict` assigns
only `idx`, leaving every other field unchanged; in particular the cyclical
schedule's `num_epoch` is neither persisted nor modified on restore. -/
theorem schedule_state_only_idx (s : LinearSchedule) (c : CyclicalLinearSchedule)
    (st t : ScheduleState) :
    s.state_dict = ⟨s.idx⟩
    ∧ s.load_state_dict st = { s with idx := st.idx }
    ∧ c.state_dict = ⟨c.idx⟩
    ∧ c.load_state_dict t = { c with idx := t.idx }
    ∧ (c.load_state_dict t).num_epoch = c.num_epoch :=
  ⟨rfl, rfl, rfl, rfl, rfl⟩

/-! ### Concrete witnesses -/

theorem linearStep_warmup_ramp_witness :
    (({ sampleLinear with idx := 2 }).step 0).2
      = sampleLinear.start_value
        + (sampleLinear.max_value.getD 0 - sampleLinear.start_value)
          * (((2 : ℕ) : ℚ) / sampleLinear.warmupSteps)
    ∧ (({ sampleLinear with idx := 0 }).step 0).2 = sampleLinear.start_value
    ∧ (({ sampleLinear with idx := 2 }).step 0).2
        ≤ (({ sampleLinear with idx := 5 }).step 0).2
    ∧ (({ sampleLinear with idx := 5 }).step 0).2
        ≤ sampleLinear.max_value.getD 0 :=
  have h := linearStep_warmup_ramp sampleLinear 0 2 5
    (by norm_num [sampleLinear, LinearSchedule.warmupSteps])
    (by norm_num [sampleLinear, LinearSchedule.warmupSteps])
    (by norm_num)
  have hm := h.2.2 (by norm_num [sampleLinear])
  ⟨h.1, h.2.1, hm.1, hm.2⟩

theorem linearStep_decay_witness :
    (({ sampleLinear with idx := 101 }).step 0).2
      = ({ sampleLinear with idx := 101 } : LinearSchedule).max_value.getD 0
        * (1 - (((101 : ℕ) : ℚ) - ({ sampleLinear with idx := 101 } : LinearSchedule).warmupSteps)
              / (({ sampleLinear with idx := 101 } : LinearSchedule).total_steps
                  - ({ sampleLinear with idx := 101 } : LinearSchedule).warmupSteps))
    ∧ (({ sampleLinear with idx := 10 }).step 0).2
        = ({ sampleLinear with idx := 10 } : LinearSchedule).max_value.getD 0
    ∧ (({ sampleLinear with idx := 101 }).step 0).2 < 0 :=
  have h101 := linearStep_decay { sampleLinear with idx := 101 } 0
    (by norm_num [sampleLinear, LinearSchedule.warmupSteps])
  have h10 := linearStep_decay { sampleLinear with idx := 10 } 0
    (by norm_num [sampleLinear, LinearSchedule.warmupSteps])
  ⟨h101.1,
   h10.2.1 (by norm_num [sampleLinear, LinearSchedule.warmupSteps]),
   h101.2.2 (by norm_num [sampleLinear, LinearSchedule.warmupSteps])
     (by norm_num [sampleLinear]) (by norm_num [sampleLinear])⟩

theorem linearStep_zero_warmup_witness :
    (sampleLinearNoWarmup.step 0).2
      = sampleLinearNoWarmup.max_value.getD 0
        + (0 - sampleLinearNoWarmup.max_value.getD 0)
          * (((sampleLinearNoWarmup.idx : ℚ) - sampleLinearNoWarmup.warmupSteps)
              / (sampleLinearNoWarmup.total_steps - sampleLinearNoWarmup.warmupSteps)) :=
  (linearStep_zero_warmup sampleLinearNoWarmup 0
    (by norm_num [sampleLinearNoWarmup, LinearSchedule.warmupSteps])).2

/-! ### Supporting lemmas on schedules and groups -/

theorem Schedule.step_fst_idx (t : Schedule) (lr : ℚ) :
    ((t.step lr).1).idx = t.idx + 1 := by
  cases t <;> rfl

theorem Schedule.state_dict_eq (t : Schedule) : t.state_dict = ⟨t.idx⟩ := by
  cases t <;> rfl

theorem Schedule.load_eq_withIdx (t : Schedule) (st : ScheduleState) :
    t.load_state_dict st = t.withIdx st.idx := by
  cases t <;> rfl

theorem Schedule.withIdx_withIdx (t : Schedule) (i j : ℕ) :
    (t.withIdx i).withIdx j = t.withIdx j := by
  cases t <;> rfl

theorem Schedule.withIdx_self (t : Schedule) : t.withIdx t.idx = t := by
  cases t <;> rfl

theorem Schedule.bumpIdx_withIdx (t : Schedule) (j : ℕ) :
    (t.bumpIdx).withIdx j = t.withIdx j := by
  cases t <;> rfl

theorem Schedule.sameShape_refl (t : Schedule) : t.sameShape t := rfl

theorem Schedule.sameShape_withIdx {t t' : Schedule} (h : t.sameShape t') (j : ℕ) :
    t.withIdx j = t'.withIdx j := by
  have := congrArg (fun u => Schedule.withIdx u j) h
  simpa [Schedule.withIdx_withIdx] using this

theorem Schedule.sameShape_bumpIdx {t t' : Schedule} (h : t.sameShape t') :
    t.sameShape (t'.bumpIdx) := by
  unfold Schedule.sameShape at *
  rw [Schedule.bumpIdx_withIdx]
  exact h

theorem Schedule.step_fst_of_resolved (t : Schedule) (lr : ℚ)
    (h : t.resolvedLinear = true) : (t.step lr).1 = t.bumpIdx := by
  cases t with
  | linear s =>
    obtain ⟨m, hm⟩ := Option.isSome_iff_exists.mp (by simpa [Schedule.resolvedLinear] using h)
    simp [Schedule.step, LinearSchedule.step, Schedule.bumpIdx, hm]
  | cyclical c => simp [Schedule.resolvedLinear] at h

theorem Schedule.resolvedLinear_step (t : Schedule) (lr : ℚ)
    (h : t.isLinear = true) : ((t.step lr).1).resolvedLinear = true := by
  cases t with
  | linear s => simp [Schedule.step, LinearSchedule.step, Schedule.resolvedLinear]
  | cyclical c => simp [Schedule.isLinear] at h

theorem Schedule.resolvedLinear_bumpIdx (t : Schedule)
    (h : t.resolvedLinear = true) : (t.bumpIdx).resolvedLinear = true := by
  cases t with
  | linear s => simpa [Schedule.bumpIdx, Schedule.resolvedLinear] using h
  | cyclical c => simp [Schedule.resolvedLinear] at h

theorem Schedule.isLinear_of_resolved (t : Schedule)
    (h : t.resolvedLinear = true) : t.isLinear = true := by
  cases t with
  | linear s => rfl
  | cyclical c => simp [Schedule.resolvedLinear] at h

theorem stepSchedules_map_idx (ss : List Schedule) (lr : ℚ) :
    ((stepSchedules ss lr).1).map Schedule.idx
      = ss.map (fun t => Schedule.idx t + 1) := by
  induction ss generalizing lr with
  | nil => rfl
  | cons s rest ih => simp [stepSchedules, Schedule.step_fst_idx, ih]

theorem stepSchedules_fst_of_resolved (ss : List Schedule) (lr : ℚ)
    (h : ss.all Schedule.resolvedLinear = true) :
    (stepSchedules ss lr).1 = ss.map Schedule.bumpIdx := by
  induction ss generalizing lr with
  | nil => rfl
  | cons s rest ih =>
    rw [List.all_cons, Bool.and_eq_true] at h
    simp [stepSchedules, Schedule.step_fst_of_resolved s lr h.1, ih _ h.2]

theorem stepSchedules_all_resolved (ss : List Schedule) (lr : ℚ)
    (h : ss.all Schedule.isLinear = true) :
    ((stepSchedules ss lr).1).all Schedule.resolvedLinear = true := by
  induction ss generalizing lr with
  | nil => rfl
  | cons s rest ih =>
    rw [List.all_cons, Bool.and_eq_true] at h
    simp only [stepSchedules, List.all_cons, Bool.and_eq_true]
    exact ⟨Schedule.resolvedLinear_step s lr h.1, ih _ h.2⟩

theorem stepGroup_eq_of_resolved (g : Group) (ss : List Schedule)
    (hg : g.schedules = some ss) (h : ss.all Schedule.resolvedLinear = true) :
    stepGroup g = ⟨(stepSchedules ss g.lr).2, some (ss.map Schedule.bumpIdx)⟩ := by
  simp [stepGroup, hg, stepSchedules_fst_of_resolved ss g.lr h]

theorem stepGroup_goodLinear (g : Group) (h : g.goodLinear = true) :
    (stepGroup g).goodLinear = true := by
  unfold Group.goodLinear at h
  cases hg : g.schedules with
  | none => rw [hg] at h; exact absurd h (by simp)
  | some ss =>
    rw [hg] at h
    rw [stepGroup_eq_of_resolved g ss hg h]
    unfold Group.goodLinear
    simp only [List.all_map, List.all_eq_true] at h ⊢
    intro t ht
    exact Schedule.resolvedLinear_bumpIdx t (h t ht)

theorem goodLinear_isSome (g : Group) (h : g.goodLinear = true) :
    (Group.schedules g).isSome = true := by
  unfold Group.goodLinear at h
  cases hg : g.schedules with
  | none => rw [hg] at h; exact absurd h (by simp)
  | some ss => simp [hg]

theorem initGroup_goodLinear (g : RawGroup) (h : g.linearOnly = true) :
    (initGroup g).goodLinear = true := by
  unfold RawGroup.linearOnly at h
  cases hg : g.schedules with
  | none => rw [hg] at h; exact absurd h (by simp)
  | some sf =>
    rw [hg] at h
    simp only [initGroup, hg, Group.goodLinear]
    exact stepSchedules_all_resolved _ _ h

theorem traverseOption_eq_some {α β : Type} (f : α → Option β) (d : α → β) (l : List α)
    (h : ∀ x ∈ l, f x = some (d x)) : traverseOption f l = some (l.map d) := by
  induction l with
  | nil => rfl
  | cons a l ih =>
    rw [List.map_cons]
    simp only [traverseOption, h a (List.mem_cons_self a l),
      ih (fun x hx => h x (List.mem_cons_of_mem a hx))]
    rfl

theorem traverseOption_isSome {α β : Type} (f : α → Option β) (l : List α) :
    (traverseOption f l).isSome = true ↔ ∀ x ∈ l, (f x).isSome = true := by
  induction l with
  | nil => exact ⟨fun _ x hx => absurd hx (List.not_mem_nil x), fun _ => rfl⟩
  | cons a l ih =>
    simp only [traverseOption]
    constructor
    · intro h x hx
      rcases List.mem_cons.mp hx with rfl | hx'
      · cases hfa : f x <;> simp [hfa] at h ⊢
      · refine ih.mp ?_ x hx'
        cases hfa : f a <;> simp [hfa] at h
        cases hfl : traverseOption f l <;> simp [hfl] at h ⊢
    · intro h
      obtain ⟨b, hb⟩ := Option.isSome_iff_exists.mp (h a (List.mem_cons_self a l))
      obtain ⟨bs, hbs⟩ := Option.isSome_iff_exists.mp
        (ih.mpr fun x hx => h x (List.mem_cons_of_mem a hx))
      simp [hb, hbs]

theorem state_dict_eq_of_schedules {σ τ : Type} (innerSD : σ → τ)
    (w : ScheduledOptimizer σ)
    (h : ∀ g ∈ w.param_groups, (Group.schedules g).isSome = true) :
    w.state_dict innerSD
      = some ⟨⟨innerSD w.internal,
               w.param_groups.map (fun g => { g with schedules := none })⟩,
              w.param_groups.map Group.lr,
              w.param_groups.map
                (fun g => ((Group.schedules g).getD []).map Schedule.state_dict)⟩ := by
  have h1 :
      traverseOption
          (fun g => (Group.schedules g).map (List.map Schedule.state_dict)) w.param_groups
        = some (w.param_groups.map
            (fun g => ((Group.schedules g).getD []).map Schedule.state_dict)) := by
    apply traverseOption_eq_some
    intro g hg
    obtain ⟨ss, hss⟩ := Option.isSome_iff_exists.mp (h g hg)
    simp [hss]
  have h2 :
      traverseOption delSchedules w.param_groups
        = some (w.param_groups.map (fun g => { g with schedules := none })) := by
    apply traverseOption_eq_some
    intro g hg
    obtain ⟨ss, hss⟩ := Option.isSome_iff_exists.mp (h g hg)
    simp [delSchedules, hss]
  simp [ScheduledOptimizer.state_dict, h1, h2]

theorem load_state_dict_eq_of_schedules {σ τ : Type} (innerLoad : τ → σ)
    (w : ScheduledOptimizer σ) (st : WrapperStateDict τ)
    (h : ∀ g ∈ w.param_groups, (Group.schedules g).isSome = true) :
    w.load_state_dict innerLoad st
      = some ⟨innerLoad st.optim.internal,
              reattachGroups st.optim.param_groups
                (w.param_groups.map (fun g => (Group.schedules g).getD []))
                st.schedules st.lr⟩ := by
  have h1 :
      traverseOption Group.schedules w.param_groups
        = some (w.param_groups.map (fun g => (Group.schedules g).getD [])) := by
    apply traverseOption_eq_some
    intro g hg
    obtain ⟨ss, hss⟩ := Option.isSome_iff_exists.mp (h g hg)
    simp [hss]
  simp [ScheduledOptimizer.load_state_dict, h1]

theorem loadSchedules_roundtrip (ss ss' : List Schedule)
    (h : List.Forall₂ Schedule.sameShape ss ss') :
    loadSchedules ss (ss'.map Schedule.state_dict) = ss' := by
  induction h with
  | nil => rfl
  | @cons a b ss ss' hab hrest ih =>
    rw [List.map_cons]
    show a.load_state_dict b.state_dict :: loadSchedules ss (ss'.map Schedule.state_dict)
      = b :: ss'
    rw [ih, Schedule.state_dict_eq, Schedule.load_eq_withIdx,
      Schedule.sameShape_withIdx hab, Schedule.withIdx_self]

theorem reattachGroups_roundtrip (gs0 gsk : List Group)
    (h : List.Forall₂ groupCongr gs0 gsk) :
    reattachGroups (gsk.map (fun g => { g with schedules := none }))
        (gs0.map (fun g => (Group.schedules g).getD []))
        (gsk.map (fun g => ((Group.schedules g).getD []).map Schedule.state_dict))
        (gsk.map Group.lr)
      = gsk := by
  induction h with
  | nil => rfl
  | @cons g g' gs gs' hpair hrest ih =>
    obtain ⟨ss, ss', hg, hg', hff⟩ := hpair
    simp only [List.map_cons, reattachGroups, ih]
    have : loadSchedules ((Group.schedules g).getD [])
        (((Group.schedules g').getD []).map Schedule.state_dict) = ss' := by
      rw [hg, hg']
      exact loadSchedules_roundtrip ss ss' hff
    rw [this]
    cases g' with
    | mk lr' sch' =>
      simp at hg'
      simp [hg']

/-- The bundled invariant used for the round-trip proof: each group of
the trajectory agrees with the corresponding freshly-primed group on
everything except schedule indices, and stays a resolved linear group. -/
def congrGood (g g' : Group) : Prop :=
  groupCongr g g' ∧ g'.goodLinear = true

theorem groupCongr_refl_of_good (g : Group) (h : g.goodLinear = true) :
    groupCongr g g := by
  obtain ⟨ss, hss⟩ := Option.isSome_iff_exists.mp (goodLinear_isSome g h)
  exact ⟨ss, ss, hss, hss, List.forall₂_same.mpr fun t _ => Schedule.sameShape_refl t⟩

theorem congrGood_stepGroup (g g' : Group) (h : congrGood g g') :
    congrGood g (stepGroup g') := by
  obtain ⟨⟨ss, ss', hg, hg', hff⟩, hgood⟩ := h
  have hall : ss'.all Schedule.resolvedLinear = true := by
    unfold Group.goodLinear at hgood
    rw [hg'] at hgood
    exact hgood
  refine ⟨⟨ss, ss'.map Schedule.bumpIdx,
    hg, by rw [stepGroup_eq_of_resolved g' ss' hg' hall], ?_⟩,
    stepGroup_goodLinear g' hgood⟩
  rw [List.forall₂_map_right_iff]
  exact hff.imp fun a b hs => Schedule.sameShape_bumpIdx hs

theorem runGroups_invariant (gs0 : List Group) (k : ℕ) (gs : List Group)
    (h : List.Forall₂ congrGood gs0 gs) :
    List.Forall₂ congrGood gs0 (runGroups k gs) := by
  induction k generalizing gs with
  | zero => exact h
  | succ k ih =>
    apply ih
    rw [List.forall₂_map_right_iff]
    exact h.imp fun a b hp => congrGood_stepGroup a b hp

theorem construct_invariant (cfg : List RawGroup)
    (h : cfg.all RawGroup.linearOnly = true) :
    List.Forall₂ congrGood (cfg.map initGroup) (cfg.map initGroup) := by
  rw [List.forall₂_same]
  intro g hg
  obtain ⟨r, hr, rfl⟩ := List.mem_map.mp hg
  have hgood := initGroup_goodLinear r (List.all_eq_true.mp h r hr)
  exact ⟨groupCongr_refl_of_good _ hgood, hgood⟩

theorem forall₂_right_mem {α β : Type} {R : α → β → Prop} {l1 : List α}
    {l2 : List β} (h : List.Forall₂ R l1 l2) : ∀ b ∈ l2, ∃ a, R a b := by
  induction h with
  | nil => exact fun b hb => absurd hb (List.not_mem_nil b)
  | cons hab hrest ih =>
    intro b hb
    rcases List.mem_cons.mp hb with rfl | hb'
    · exact ⟨_, hab⟩
    · exact ih b hb'

/-! ### Wrapper-level claims -/

/-- C4: the wrapper's constructor normalizes a single schedule into a list
of one, records the normalized groups, and steps every attached schedule
exactly once, so a group's target field is primed to its schedule's
initial value and every schedule's index is advanced by one (from 0 to 1
for a fresh schedule) before any `step()` call. -/
theorem construct_normalizes_and_primes {σ : Type} (internal : σ)
    (groups : List RawGroup) (lrv : ℚ) (s : Schedule) (g : RawGroup)
    (ss : List Schedule) (hg : g.schedules = some (.many ss)) :
    initGroup ⟨lrv, some (.one s)⟩ = initGroup ⟨lrv, some (.many [s])⟩
    ∧ (ScheduledOptimizer.construct internal groups).param_groups = groups.map initGroup
    ∧ initGroup ⟨lrv, some (.one s)⟩ = ⟨(s.step lrv).2, some [(s.step lrv).1]⟩
    ∧ ((s.step lrv).1).idx = s.idx + 1
    ∧ (initGroup g).schedules = some (stepSchedules ss g.lr).1
    ∧ ((stepSchedules ss g.lr).1).map Schedule.idx
        = ss.map (fun t => Schedule.idx t + 1) := by
  refine ⟨rfl, rfl, ?_, Schedule.step_fst_idx s lrv, ?_,
    stepSchedules_map_idx ss g.lr⟩
  · simp [initGroup, SchedulesField.toList, stepSchedules]
  · simp [initGroup, hg, SchedulesField.toList]

theorem construct_normalizes_and_primes_witness :
    initGroup ⟨1, some (.one (.linear sampleLinear))⟩
      = initGroup ⟨1, some (.many [.linear sampleLinear])⟩
    ∧ sampleWrapper.param_groups = sampleCfg.map initGroup
    ∧ initGroup ⟨1, some (.one (.linear sampleLinear))⟩
        = ⟨((Schedule.linear sampleLinear).step 1).2,
           some [((Schedule.linear sampleLinear).step 1).1]⟩
    ∧ (((Schedule.linear sampleLinear).step 1).1).idx
        = Schedule.idx (.linear sampleLinear) + 1
    ∧ (initGroup sampleRawGroupMany).schedules
        = some (stepSchedules [.linear sampleLinear] sampleRawGroupMany.lr).1
    ∧ ((stepSchedules [.linear sampleLinear] sampleRawGroupMany.lr).1).map Schedule.idx
        = [Schedule.linear sampleLinear].map (fun t => Schedule.idx t + 1) :=
  construct_normalizes_and_primes 0 sampleCfg 1 (.linear sampleLinear)
    sampleRawGroupMany [.linear sampleLinear] rfl

/-- C6: on a wrapper all of whose parameter groups carry a `schedules`
entry, `state_dict()` returns exactly the three keys `optim` (the inner
optimizer's state dict, whose embedded parameter-group copies have the
`schedules` entry removed), `lr` (every group's current target value, in
group order) and `schedules` (every group's schedules' serialized states,
in attachment order). -/
theorem state_dict_layout {σ τ : Type} (innerSD : σ → τ)
    (w : ScheduledOptimizer σ)
    (h : ∀ g ∈ w.param_groups, (Group.schedules g).isSome = true) :
    w.state_dict innerSD
      = some ⟨⟨innerSD w.internal,
               w.param_groups.map (fun g => { g with schedules := none })⟩,
              w.param_groups.map Group.lr,
              w.param_groups.map
                (fun g => ((Group.schedules g).getD []).map Schedule.state_dict)⟩ :=
  state_dict_eq_of_schedules innerSD w h

theorem state_dict_layout_witness :
    sampleWrapper.state_dict (fun n : ℕ => n)
      = some ⟨⟨sampleWrapper.internal,
               sampleWrapper.param_groups.map (fun g => { g with schedules := none })⟩,
              sampleWrapper.param_groups.map Group.lr,
              sampleWrapper.param_groups.map
                (fun g => ((Group.schedules g).getD []).map Schedule.state_dict)⟩ :=
  state_dict_layout (fun n : ℕ => n) sampleWrapper
    (by
      intro g hg
      have hg' := List.mem_singleton.mp hg
      subst hg'
      rfl)

/-- C9: `state_dict()` succeeds exactly when every parameter group carries
a `schedules` entry (a group without one makes it raise, modelled as
`none`), while `step()` and the constructor tolerate such groups by
checking for the key's presence and leaving them untouched. -/
theorem state_dict_needs_schedules {σ τ : Type} (innerSD : σ → τ)
    (w : ScheduledOptimizer σ) :
    ((w.state_dict innerSD).isSome = true
      ↔ ∀ g ∈ w.param_groups, (Group.schedules g).isSome = true)
    ∧ (∀ g : Group, g.schedules = none → stepGroup g = g)
    ∧ (∀ lrv : ℚ, initGroup ⟨lrv, none⟩ = ⟨lrv, none⟩) := by
  refine ⟨?_, fun g hg => by simp [stepGroup, hg], fun lrv => rfl⟩
  unfold ScheduledOptimizer.state_dict
  cases h1 : traverseOption
      (fun g => (Group.schedules g).map (List.map Schedule.state_dict))
      w.param_groups with
  | none =>
    simp
    by_contra hne
    push_neg at hne
    have hs : (traverseOption
        (fun g => (Group.schedules g).map (List.map Schedule.state_dict))
        w.param_groups).isSome = true :=
      (traverseOption_isSome _ _).mpr fun g hg => by
        cases hx : Group.schedules g with
        | none => exact absurd hx (hne g hg)
        | some ss => simp [hx]
    rw [h1] at hs
    simp at hs
  | some L =>
    cases h2 : traverseOption delSchedules w.param_groups with
    | none =>
      simp
      by_contra hne
      push_neg at hne
      have hs : (traverseOption delSchedules w.param_groups).isSome = true :=
        (traverseOption_isSome _ _).mpr fun g hg => by
          cases hx : Group.schedules g with
          | none => exact absurd hx (hne g hg)
          | some ss => simp [delSchedules, hx]
      rw [h2] at hs
      simp at hs
    | some L2 =>
      simp
      intro g hg
      have h1s := (traverseOption_isSome
        (fun g => (Group.schedules g).map (List.map Schedule.state_dict))
        w.param_groups).mp (by simp [h1]) g hg
      simpa [Option.isSome_map] using h1s

/-- C10: `ScheduledOptimizer.step(closure)` always returns `None`: the
inner optimizer's step is invoked with the closure (its state update and
the subsequent schedule stepping take effect), but its return value —
the loss — is discarded and never forwarded. -/
theorem scheduled_step_returns_none {σ C : Type}
    (innerStep : Option C → σ → List Group → σ × List Group × Option ℚ)
    (w : ScheduledOptimizer σ) (closure : Option C) :
    (w.step innerStep closure).2 = none
    ∧ (w.step innerStep closure).1
        = ⟨(innerStep closure w.internal w.param_groups).1,
           ((innerStep closure w.internal w.param_groups).2.1).map stepGroup⟩ :=
  ⟨rfl, rfl⟩

/-- C3: for a wrapper holding only `LinearSchedule`s, `state_dict()` after
any number `k` of steps, loaded via `load_state_dict()` into a freshly
constructed, identically configured wrapper, reproduces the original
wrapper's parameter groups exactly, so every subsequent sequence of `n`
`step()` calls writes the same hyperparameter values into the groups as
the original would have; the per-schedule `idx` is sufficient state.  The
first conjunct ties the group trajectory `runGroups` to
`ScheduledOptimizer.step` whenever the inner optimizer's own step leaves
the groups unchanged. -/
theorem linear_state_roundtrip {σ τ C : Type} (innerSD : σ → τ)
    (innerLoad : τ → σ)
    (innerStep : Option C → σ → List Group → σ × List Group × Option ℚ)
    (c : Option C) (v : ScheduledOptimizer σ)
    (θ θ' ι : σ) (cfg : List RawGroup) (k n : ℕ)
    (hpres : (innerStep c v.internal v.param_groups).2.1 = v.param_groups)
    (hcfg : cfg.all RawGroup.linearOnly = true) :
    (v.step innerStep c).1.param_groups = v.param_groups.map stepGroup
    ∧ (((ScheduledOptimizer.mk ι
            (runGroups k
              (ScheduledOptimizer.construct θ cfg).param_groups)).state_dict
              innerSD).bind
          ((ScheduledOptimizer.construct θ' cfg).load_state_dict innerLoad)).map
        (fun w => runGroups n w.param_groups)
        = some (runGroups n
            (runGroups k (ScheduledOptimizer.construct θ cfg).param_groups)) := by
  constructor
  · simp [ScheduledOptimizer.step, hpres]
  · show (((ScheduledOptimizer.mk ι
        (runGroups k (cfg.map initGroup))).state_dict innerSD).bind
          ((ScheduledOptimizer.construct θ' cfg).load_state_dict innerLoad)).map
        (fun w => runGroups n w.param_groups)
      = some (runGroups n (runGroups k (cfg.map initGroup)))
    have hinv : List.Forall₂ congrGood (cfg.map initGroup)
        (runGroups k (cfg.map initGroup)) :=
      runGroups_invariant _ k _ (construct_invariant cfg hcfg)
    have hGkSome : ∀ g ∈ runGroups k (cfg.map initGroup),
        (Group.schedules g).isSome = true := by
      intro g hg
      obtain ⟨a, ha⟩ := forall₂_right_mem hinv g hg
      exact goodLinear_isSome g ha.2
    have hG0Some : ∀ g ∈ cfg.map initGroup,
        (Group.schedules g).isSome = true := by
      intro g hg
      obtain ⟨r, hr, rfl⟩ := List.mem_map.mp hg
      exact goodLinear_isSome _ (initGroup_goodLinear r (List.all_eq_true.mp hcfg r hr))
    rw [state_dict_eq_of_schedules innerSD
      (ScheduledOptimizer.mk ι (runGroups k (cfg.map initGroup))) hGkSome,
      Option.some_bind,
      load_state_dict_eq_of_schedules innerLoad
        (ScheduledOptimizer.construct θ' cfg) _ hG0Some,
      Option.map_some']
    exact congrArg some (congrArg (runGroups n)
      (reattachGroups_roundtrip (cfg.map initGroup)
        (runGroups k (cfg.map initGroup)) (hinv.imp fun a b hp => hp.1)))

theorem linear_state_roundtrip_witness :
    (sampleWrapper.step sampleInnerStep none).1.param_groups
      = sampleWrapper.param_groups.map stepGroup
    ∧ (((ScheduledOptimizer.mk 0
            (runGroups 2
              (ScheduledOptimizer.construct 0 sampleCfg).param_groups)).state_dict
              (fun m : ℕ => m)).bind
          ((ScheduledOptimizer.construct 0 sampleCfg).load_state_dict
            (fun m : ℕ => m))).map
        (fun w => runGroups 2 w.param_groups)
        = some (runGroups 2
            (runGroups 2 (ScheduledOptimizer.construct 0 sampleCfg).param_groups)) :=
  linear_state_roundtrip (fun m : ℕ => m) (fun m : ℕ => m) sampleInnerStep none
    sampleWrapper 0 0 0 sampleCfg 2 2 rfl rfl

end Oeciml
